import Mathlib

/-!
Verification of the fund-waterfall allocator and priority sort of
`src/utils/ProjectDataParser.tsx` (repository DrakeOnline/FirstApp).

The embedding models JavaScript numbers by exact rationals (`ℚ`); the
`Number.prototype.toFixed(2)` rounding of a nonnegative value is modelled as
round-half-up to two decimal places, and `Array.prototype.sort` (guaranteed
stable by ECMAScript 2019) is modelled as a stable insertion sort driven by
the source's comparator.  An unrecognised priority string makes the source's
comparator evaluate to `undefined - undefined = NaN`, which the ECMAScript
sort treats as `+0`; the embedding's comparator returns `0` in that case.
-/

namespace FirstApp

/-- The `IProject` interface of `ProjectDataParser.tsx` (lines 17-24): a
project record carrying a computed `progress` field. -/
structure IProject where
  name : String
  details : String
  amount : ℚ
  priority : String
  start_date : String
  progress : ℚ
deriving Repr, DecidableEq, Inhabited

/-- The `ProjectFromJson` type (line 27): a project as loaded from JSON,
without the `progress` field.  The `priority` field is a plain string at
runtime (the TypeScript union type is erased), so unrecognised tiers are
representable. -/
structure ProjectFromJson where
  name : String
  details : String
  amount : ℚ
  priority : String
  start_date : String
deriving Repr, DecidableEq, Inhabited

/-- `priorityOrder` (lines 30-35): the rank of each recognised priority tier;
lower number means higher priority.  Indexing the JavaScript object with an
unrecognised key yields `undefined`, modelled by `none`. -/
def priorityOrder : String → Option ℕ
  | "critical" => some 1
  | "high" => some 2
  | "medium" => some 3
  | "low" => some 4
  | _ => none

/-- The comparator of line 47: `priorityOrder[a.priority] - priorityOrder[b.priority]`.
When either lookup is `undefined` the subtraction is `NaN`, which the
ECMAScript sort coerces to `+0`; the embedding returns `0` there. -/
def compareProjects (a b : ProjectFromJson) : Int :=
  match priorityOrder a.priority, priorityOrder b.priority with
  | some x, some y => (x : Int) - (y : Int)
  | _, _ => 0

/-- The boolean "a may come before b" relation induced by the comparator:
a stable sort places `a` before `b` whenever the comparator is `≤ 0`. -/
def projectLE (a b : ProjectFromJson) : Bool := compareProjects a b ≤ 0

/-- Stable insertion of `a` into `l`: `a` is placed before the first element
`b` with `le a b`. -/
def insertSorted (le : α → α → Bool) (a : α) : List α → List α
  | [] => [a]
  | b :: l => if le a b then a :: b :: l else b :: insertSorted le a l

/-- Stable sort by repeated insertion; later elements are inserted first, so
an element is placed before every equal-ranked element that followed it in
the input.  This models the stable `Array.prototype.sort`. -/
def stableSort (le : α → α → Bool) : List α → List α
  | [] => []
  | a :: l => insertSorted le a (stableSort le l)

/-- `sortProjectsByPriority` (lines 45-48): sorts a copy of the project list
with the priority comparator, leaving the original untouched. -/
def sortProjectsByPriority (projects : List ProjectFromJson) : List ProjectFromJson :=
  stableSort projectLE projects

/-- The rank actually compared for a project, with a default for
unrecognised tiers (used only to state sortedness of valid lists). -/
def priorityRank (p : ProjectFromJson) : ℕ :=
  (priorityOrder p.priority).getD 0

/-- `toFixed(2)` followed by `parseFloat` on a nonnegative value
(line 111): round half-up to two decimal places. -/
def round2 (x : ℚ) : ℚ := ((round (x * 100) : ℤ) : ℚ) / 100

/-- Line 111: `Math.min(100, Math.max(0, parseFloat(progress.toFixed(2))))`. -/
def clampProgress (x : ℚ) : ℚ := min 100 (max 0 (round2 x))

/-- The record `{ ...project, progress }` built on line 93 and mutated on
lines 98, 104 and 111. -/
def withProgress (project : ProjectFromJson) (progress : ℚ) : IProject :=
  { name := project.name, details := project.details, amount := project.amount,
    priority := project.priority, start_date := project.start_date, progress := progress }

/-- One iteration of the loop of lines 91-114: given the remaining earned
money and the current project, produce the finished result record and the
new remaining amount. -/
def distributeStep (remaining : ℚ) (project : ProjectFromJson) : IProject × ℚ :=
  if project.amount ≤ 0 then
    (withProgress project (clampProgress 100), remaining)
  else if 0 < remaining then
    let moneyAllocatedToProject := min remaining project.amount
    (withProgress project (clampProgress (moneyAllocatedToProject / project.amount * 100)),
      remaining - moneyAllocatedToProject)
  else
    (withProgress project (clampProgress 0), remaining)

/-- The loop of lines 91-114, threading `remainingEarnedMoney` through the
projects in order and collecting the result records. -/
def distributeGo : ℚ → List ProjectFromJson → List IProject
  | _, [] => []
  | remaining, project :: rest =>
    (distributeStep remaining project).1 ::
      distributeGo (distributeStep remaining project).2 rest

/-- `distributeFundsAndCalculateProgress` (lines 84-117). -/
def distributeFundsAndCalculateProgress
    (sortedProjects : List ProjectFromJson) (totalEarnedMoney : ℚ) : List IProject :=
  distributeGo totalEarnedMoney sortedProjects

/-- The amount `moneyAllocatedToProject` deducted from the pool for one
project (line 101), `0` in the branches that allocate nothing. -/
def moneyAllocated (remaining : ℚ) (project : ProjectFromJson) : ℚ :=
  if project.amount ≤ 0 then 0
  else if 0 < remaining then min remaining project.amount
  else 0

/-- The per-project deducted amounts of a whole run, in order. -/
def allocationsGo : ℚ → List ProjectFromJson → List ℚ
  | _, [] => []
  | remaining, project :: rest =>
    moneyAllocated remaining project ::
      allocationsGo (remaining - moneyAllocated remaining project) rest

/-- The total allocation as the specification's conservation property
computes it: for each emitted result with positive cost, take
`completionPercent / 100 * cost` (using the rounded, clamped output
percentage) and sum. -/
def claimedAllocatedSum (ps : List ProjectFromJson) (pool : ℚ) : ℚ :=
  (((distributeFundsAndCalculateProgress ps pool).filter
      (fun r => decide (0 < r.amount))).map
    (fun r => r.progress / 100 * r.amount)).sum

/-- Forgets the computed `progress` field of a result record. -/
def dropProgress (q : IProject) : ProjectFromJson :=
  { name := q.name, details := q.details, amount := q.amount,
    priority := q.priority, start_date := q.start_date }

/-! Basic evaluation lemmas for the rounding and clamping primitives. -/

lemma round2_eq_of (x : ℚ) (n : ℤ) (h₁ : (n : ℚ) ≤ x * 100 + 1 / 2)
    (h₂ : x * 100 + 1 / 2 < (n : ℚ) + 1) : round2 x = (n : ℚ) / 100 := by
  unfold round2
  rw [round_eq, Int.floor_eq_iff.mpr ⟨h₁, h₂⟩]

lemma round2_zero : round2 0 = 0 := by
  rw [round2_eq_of 0 0 (by norm_num) (by norm_num)]
  norm_num

lemma round2_hundred : round2 100 = 100 := by
  rw [round2_eq_of 100 10000 (by norm_num) (by norm_num)]
  norm_num

lemma round2_mono {x y : ℚ} (h : x ≤ y) : round2 x ≤ round2 y := by
  unfold round2
  have hr : round (x * 100) ≤ round (y * 100) := by
    rw [round_eq, round_eq]
    exact Int.floor_le_floor (by linarith)
  have hc : ((round (x * 100) : ℤ) : ℚ) ≤ ((round (y * 100) : ℤ) : ℚ) := by
    exact_mod_cast hr
  linarith

lemma clampProgress_zero : clampProgress 0 = 0 := by
  unfold clampProgress
  rw [round2_zero]
  norm_num

lemma clampProgress_hundred : clampProgress 100 = 100 := by
  unfold clampProgress
  rw [round2_hundred]
  norm_num

lemma clampProgress_nonneg (x : ℚ) : 0 ≤ clampProgress x := by
  unfold clampProgress
  exact le_min (by norm_num) (le_max_left 0 _)

lemma clampProgress_le_hundred (x : ℚ) : clampProgress x ≤ 100 :=
  min_le_left _ _

lemma clampProgress_mono {x y : ℚ} (h : x ≤ y) : clampProgress x ≤ clampProgress y := by
  unfold clampProgress
  exact min_le_min le_rfl (max_le_max le_rfl (round2_mono h))

/-! Evaluation lemmas for one loop iteration, by branch. -/

lemma distributeStep_zero_cost {p : ProjectFromJson} (r : ℚ) (h : p.amount ≤ 0) :
    distributeStep r p = (withProgress p 100, r) := by
  simp [distributeStep, h, clampProgress_hundred]

lemma distributeStep_full {p : ProjectFromJson} {r : ℚ} (h : 0 < p.amount)
    (hr : p.amount ≤ r) : distributeStep r p = (withProgress p 100, r - p.amount) := by
  have h0 : ¬ p.amount ≤ 0 := not_le.mpr h
  have hrpos : 0 < r := lt_of_lt_of_le h hr
  have hmin : min r p.amount = p.amount := min_eq_right hr
  simp only [distributeStep, h0, if_false, hrpos, if_true, hmin]
  rw [div_self (ne_of_gt h)]
  rw [one_mul, clampProgress_hundred]

lemma distributeStep_partial {p : ProjectFromJson} {r : ℚ} (h : 0 < p.amount)
    (hr : 0 < r) (hlt : r < p.amount) :
    distributeStep r p = (withProgress p (clampProgress (r / p.amount * 100)), 0) := by
  have h0 : ¬ p.amount ≤ 0 := not_le.mpr h
  have hmin : min r p.amount = r := min_eq_left (le_of_lt hlt)
  simp only [distributeStep, h0, if_false, hr, if_true, hmin]
  rw [sub_self]

lemma distributeStep_exhausted {p : ProjectFromJson} {r : ℚ} (h : ¬ p.amount ≤ 0)
    (hr : ¬ 0 < r) : distributeStep r p = (withProgress p 0, r) := by
  simp [distributeStep, h, hr, clampProgress_zero]

lemma distributeStep_snd (r : ℚ) (p : ProjectFromJson) :
    (distributeStep r p).2 = r - moneyAllocated r p := by
  unfold distributeStep moneyAllocated
  split
  · simp
  · split <;> simp

lemma distributeStep_snd_of_nonpos {r : ℚ} (p : ProjectFromJson) (hr : r ≤ 0) :
    (distributeStep r p).2 = r := by
  rw [distributeStep_snd]
  have : moneyAllocated r p = 0 := by
    unfold moneyAllocated
    split
    · rfl
    · rw [if_neg (not_lt.mpr hr)]
  rw [this, sub_zero]

lemma moneyAllocated_nonneg (r : ℚ) (p : ProjectFromJson) : 0 ≤ moneyAllocated r p := by
  unfold moneyAllocated
  split
  · exact le_rfl
  · split
    · exact le_min (le_of_lt (by assumption)) (le_of_lt (not_le.mp (by assumption)))
    · exact le_rfl

lemma distributeStep_progress_alloc (r : ℚ) (p : ProjectFromJson)
    (h : ¬ p.amount ≤ 0) :
    (distributeStep r p).1.progress
      = clampProgress (moneyAllocated r p / p.amount * 100) := by
  by_cases hr : 0 < r
  · simp [distributeStep, moneyAllocated, h, hr, withProgress]
  · simp [distributeStep, moneyAllocated, h, hr, withProgress]

lemma distributeGo_length (ps : List ProjectFromJson) :
    ∀ r : ℚ, (distributeGo r ps).length = ps.length := by
  induction ps with
  | nil => intro r; rfl
  | cons p rest ih => intro r; simp [distributeGo, ih]

/-! The allocator preserves every input field and emits one record per
input, in order. -/

lemma dropProgress_withProgress (p : ProjectFromJson) (x : ℚ) :
    dropProgress (withProgress p x) = p := rfl

lemma distributeStep_fst_eq (r : ℚ) (p : ProjectFromJson) :
    ∃ x : ℚ, (distributeStep r p).1 = withProgress p (clampProgress x) := by
  unfold distributeStep
  split
  · exact ⟨100, rfl⟩
  · split
    · exact ⟨_, rfl⟩
    · exact ⟨0, rfl⟩

/-- C10: the allocator returns exactly one result per input target, in input
order, and each result carries every field of its originating target
unchanged (name, details, amount, priority, start_date); the only computed
field is `progress`. -/
theorem allocator_preserves_shape_and_fields
    (ps : List ProjectFromJson) (pool : ℚ) :
    (distributeFundsAndCalculateProgress ps pool).map dropProgress = ps := by
  unfold distributeFundsAndCalculateProgress
  induction ps generalizing pool with
  | nil => rfl
  | cons p rest ih =>
    obtain ⟨x, hx⟩ := distributeStep_fst_eq pool p
    simp [distributeGo, hx, dropProgress_withProgress, ih]

/-! Zero-cost targets: always 100 percent, pool untouched. -/

lemma distributeGo_getD_progress_of_nonpos_amount
    (ps : List ProjectFromJson) :
    ∀ (r : ℚ) (i : ℕ), i < ps.length → (ps.getD i default).amount ≤ 0 →
      ((distributeGo r ps).getD i default).progress = 100 := by
  induction ps with
  | nil => intro r i hi _; exact absurd hi (by simp)
  | cons p rest ih =>
    intro r i hi hcost
    cases i with
    | zero =>
      have hp : p.amount ≤ 0 := by simpa using hcost
      simp [distributeGo, distributeStep_zero_cost r hp, withProgress]
    | succ n =>
      have hn : n < rest.length := by simpa using hi
      have hc : (rest.getD n default).amount ≤ 0 := by simpa using hcost
      simpa [distributeGo] using ih (distributeStep r p).2 n hn hc

/-- C4: a target whose cost is `≤ 0` (including negative cost) is assigned
`completionPercent = 100` whatever the pool is, and processing such a target
leaves the remaining pool unchanged. -/
theorem zero_cost_full_progress (ps : List ProjectFromJson) (pool : ℚ) (i : ℕ)
    (hi : i < ps.length) (hcost : (ps.getD i default).amount ≤ 0) :
    ((distributeFundsAndCalculateProgress ps pool).getD i default).progress = 100
    ∧ ∀ (r : ℚ) (p : ProjectFromJson), p.amount ≤ 0 → (distributeStep r p).2 = r := by
  constructor
  · exact distributeGo_getD_progress_of_nonpos_amount ps pool i hi hcost
  · intro r p hp
    rw [distributeStep_zero_cost r hp]

/-- A concrete instance of C4: a single target of cost `-3` with pool `0`
is reported 100 percent complete. -/
theorem zero_cost_full_progress_witness :
    ((distributeFundsAndCalculateProgress
        [⟨"free", "", -3, "low", "2025-06-01"⟩] 0).getD 0 default).progress = 100 :=
  (zero_cost_full_progress [⟨"free", "", -3, "low", "2025-06-01"⟩] 0 0
    (by simp) (by norm_num)).1

/-! Negative pools behave exactly like an empty pool. -/

lemma distributeGo_eq_of_nonpos (ps : List ProjectFromJson) :
    ∀ {r₁ r₂ : ℚ}, r₁ ≤ 0 → r₂ ≤ 0 → distributeGo r₁ ps = distributeGo r₂ ps := by
  induction ps with
  | nil => intro r₁ r₂ _ _; rfl
  | cons p rest ih =>
    intro r₁ r₂ h₁ h₂
    by_cases hp : p.amount ≤ 0
    · simp only [distributeGo, distributeStep_zero_cost _ hp]
      exact congrArg _ (ih h₁ h₂)
    · have e₁ := distributeStep_exhausted hp (not_lt.mpr h₁)
      have e₂ := distributeStep_exhausted hp (not_lt.mpr h₂)
      simp only [distributeGo, e₁, e₂]
      exact congrArg _ (ih h₁ h₂)

lemma distributeGo_mem_of_nonpos (ps : List ProjectFromJson) :
    ∀ {r : ℚ}, r ≤ 0 → ∀ q ∈ distributeGo r ps,
      (0 < q.amount → q.progress = 0) ∧ (q.amount ≤ 0 → q.progress = 100) := by
  induction ps with
  | nil => intro r _ q hq; exact absurd hq (by simp [distributeGo])
  | cons p rest ih =>
    intro r hr q hq
    by_cases hp : p.amount ≤ 0
    · rw [distributeGo, distributeStep_zero_cost r hp] at hq
      rcases List.mem_cons.mp hq with hq | hq
      · subst hq
        exact ⟨fun h => absurd hp (not_le.mpr h), fun _ => rfl⟩
      · exact ih hr q hq
    · rw [distributeGo, distributeStep_exhausted hp (not_lt.mpr hr)] at hq
      rcases List.mem_cons.mp hq with hq | hq
      · subst hq
        exact ⟨fun _ => rfl, fun h => absurd h hp⟩
      · exact ih hr q hq

/-- C5: a negative pool is clamped, not an error: the run's output is
identical to the output on pool `0`, every positive-cost target gets
`completionPercent = 0`, and every target with cost `≤ 0` gets `100`. -/
theorem negative_pool_clamped (ps : List ProjectFromJson) (pool : ℚ)
    (hneg : pool < 0) :
    distributeFundsAndCalculateProgress ps pool = distributeFundsAndCalculateProgress ps 0
    ∧ ∀ q ∈ distributeFundsAndCalculateProgress ps pool,
        (0 < q.amount → q.progress = 0) ∧ (q.amount ≤ 0 → q.progress = 100) := by
  constructor
  · exact distributeGo_eq_of_nonpos ps (le_of_lt hneg) le_rfl
  · exact distributeGo_mem_of_nonpos ps (le_of_lt hneg)

/-- A concrete instance of C5: with pool `-5`, the run on a two-target list
coincides with the run on pool `0`. -/
theorem negative_pool_clamped_witness :
    distributeFundsAndCalculateProgress
        [⟨"a", "", 10, "critical", "2025-06-01"⟩, ⟨"b", "", 0, "low", "2025-06-01"⟩] (-5)
      = distributeFundsAndCalculateProgress
        [⟨"a", "", 10, "critical", "2025-06-01"⟩, ⟨"b", "", 0, "low", "2025-06-01"⟩] 0 :=
  (negative_pool_clamped
    [⟨"a", "", 10, "critical", "2025-06-01"⟩, ⟨"b", "", 0, "low", "2025-06-01"⟩] (-5)
    (by norm_num)).1

/-! Conservation of the pool, stated on the amounts actually deducted. -/

/-- C2 (amended): the total of the amounts actually deducted from the pool
during a run never exceeds `max 0 pool`. -/
theorem allocated_total_le_pool (ps : List ProjectFromJson) (pool : ℚ) :
    (allocationsGo pool ps).sum ≤ max 0 pool := by
  induction ps generalizing pool with
  | nil => simp [allocationsGo, le_max_left]
  | cons p rest ih =>
    rw [allocationsGo, List.sum_cons]
    by_cases hp : p.amount ≤ 0
    · have hm : moneyAllocated pool p = 0 := by simp [moneyAllocated, hp]
      rw [hm, zero_add, sub_zero]
      exact ih pool
    · by_cases hr : 0 < pool
      · have hm : moneyAllocated pool p = min pool p.amount := by
          simp [moneyAllocated, hp, hr]
        have hmle : min pool p.amount ≤ pool := min_le_left _ _
        have hrest := ih (pool - moneyAllocated pool p)
        have hnn : 0 ≤ pool - moneyAllocated pool p := by
          rw [hm]; linarith
        have hmax : max 0 (pool - moneyAllocated pool p) = pool - moneyAllocated pool p :=
          max_eq_right hnn
        rw [hmax] at hrest
        have : moneyAllocated pool p + (allocationsGo (pool - moneyAllocated pool p) rest).sum
            ≤ pool := by linarith
        exact this.trans (le_max_right 0 pool)
      · have hm : moneyAllocated pool p = 0 := by simp [moneyAllocated, hp, hr]
        rw [hm, zero_add, sub_zero]
        exact ih pool

/-! The sort never rejects an input: it is total and permutes its input,
whatever the priority strings are. -/

lemma insertSorted_perm (le : α → α → Bool) (a : α) (l : List α) :
    (insertSorted le a l).Perm (a :: l) := by
  induction l with
  | nil => exact List.Perm.refl _
  | cons b l ih =>
    rw [insertSorted]
    split
    · exact List.Perm.refl _
    · exact List.Perm.trans (ih.cons b) (List.Perm.swap a b l)

lemma stableSort_perm (le : α → α → Bool) (l : List α) : (stableSort le l).Perm l := by
  induction l with
  | nil => exact List.Perm.refl _
  | cons a l ih =>
    exact (insertSorted_perm le a (stableSort le l)).trans (ih.cons a)

/-- A target whose priority tier is none of the four recognised values. -/
def invalidTierTarget : ProjectFromJson := ⟨"bad", "", 10, "urgent", "2025-06-01"⟩

/-- C1 counterexample: on a list containing a target with the unrecognised
tier `"urgent"`, `sortProjectsByPriority` does not fail at all: no
`InvalidPriorityError` exists anywhere in the code, the comparator's lookup
is `undefined` (here: `none`), and the sort silently returns the list. -/
theorem invalid_priority_not_rejected :
    priorityOrder invalidTierTarget.priority = none
    ∧ sortProjectsByPriority [invalidTierTarget] = [invalidTierTarget] :=
  ⟨rfl, rfl⟩

/-- C1 (amended): on any input containing a target with an unrecognised
priority tier, `sortProjectsByPriority` raises no error: it totally returns
a permutation of its input, the comparisons involving the unrecognised tier
being treated as ties (the `NaN` comparator value is coerced to `0`). -/
theorem invalid_priority_sorted_without_error (ps : List ProjectFromJson)
    (_hbad : ∃ p ∈ ps, priorityOrder p.priority = none) :
    (sortProjectsByPriority ps).Perm ps :=
  stableSort_perm projectLE ps

/-- A concrete instance of the amended C1: the sort of a two-target list
whose second target has tier `"urgent"` succeeds and permutes the input. -/
theorem invalid_priority_sorted_without_error_witness :
    (sortProjectsByPriority
        [⟨"ok", "", 5, "low", "2025-06-01"⟩, invalidTierTarget]).Perm
      [⟨"ok", "", 5, "low", "2025-06-01"⟩, invalidTierTarget] :=
  invalid_priority_sorted_without_error
    [⟨"ok", "", 5, "low", "2025-06-01"⟩, invalidTierTarget]
    ⟨invalidTierTarget, by simp, rfl⟩

/-! The specification's conservation formula, recomputed from the rounded
output percentages, can overshoot the pool. -/

/-- A single target of cost `3`: with pool `2` its completion percentage is
rounded up to `66.67`, and `66.67 / 100 * 3 = 2.0001` exceeds the pool. -/
def overshootTarget : ProjectFromJson := ⟨"goal", "", 3, "critical", "2025-06-01"⟩

lemma overshoot_run :
    distributeFundsAndCalculateProgress [overshootTarget] 2
      = [withProgress overshootTarget (6667 / 100)] := by
  have hstep : distributeStep 2 overshootTarget
      = (withProgress overshootTarget (clampProgress (2 / 3 * 100)), 0) := by
    have h := distributeStep_partial (p := overshootTarget) (r := 2)
      (by norm_num [overshootTarget]) (by norm_num) (by norm_num [overshootTarget])
    simpa [overshootTarget] using h
  have hcl : clampProgress (2 / 3 * 100) = 6667 / 100 := by
    unfold clampProgress
    rw [round2_eq_of (2 / 3 * 100) 6667 (by norm_num) (by norm_num)]
    push_cast
    rw [max_eq_right (by norm_num), min_eq_right (by norm_num)]
  simp [distributeFundsAndCalculateProgress, distributeGo, hstep, hcl]

/-- C2 counterexample: for the single target of cost `3` and pool `2`, the
sum of `completionPercent / 100 * cost` over positive-cost targets is
`2.0001`, strictly exceeding `max 0 pool = 2`; the conservation inequality
as stated over the rounded output percentages is false. -/
theorem conservation_of_rounded_percent_fails :
    claimedAllocatedSum [overshootTarget] 2 = 20001 / 10000
    ∧ ¬ claimedAllocatedSum [overshootTarget] 2 ≤ max 0 2 := by
  have hsum : claimedAllocatedSum [overshootTarget] 2 = 20001 / 10000 := by
    rw [claimedAllocatedSum, overshoot_run]
    norm_num [withProgress, overshootTarget]
  refine ⟨hsum, ?_⟩
  rw [hsum, max_eq_right (by norm_num : (0 : ℚ) ≤ 2)]
  norm_num

/-! Monotonicity of every completion percentage in the pool. -/

lemma distributeStep_alloc {p : ProjectFromJson} {r : ℚ} (h : ¬ p.amount ≤ 0)
    (hr : 0 < r) :
    distributeStep r p
      = (withProgress p (clampProgress (min r p.amount / p.amount * 100)),
          r - min r p.amount) := by
  simp only [distributeStep, h, if_false, hr, if_true]

lemma remaining_sub_min_mono {r₁ r₂ a : ℚ} (h : r₁ ≤ r₂) :
    r₁ - min r₁ a ≤ r₂ - min r₂ a := by
  rcases le_total r₁ a with hc | hc <;> rcases le_total r₂ a with hc' | hc'
  · rw [min_eq_left hc, min_eq_left hc']; linarith
  · rw [min_eq_left hc, min_eq_right hc']; linarith
  · rw [min_eq_right hc, min_eq_left hc']; linarith
  · rw [min_eq_right hc, min_eq_right hc']; linarith

lemma distributeStep_mono (p : ProjectFromJson) {r₁ r₂ : ℚ} (h : r₁ ≤ r₂) :
    (distributeStep r₁ p).1.progress ≤ (distributeStep r₂ p).1.progress
    ∧ (distributeStep r₁ p).2 ≤ (distributeStep r₂ p).2 := by
  by_cases hp : p.amount ≤ 0
  · rw [distributeStep_zero_cost r₁ hp, distributeStep_zero_cost r₂ hp]
    exact ⟨le_rfl, h⟩
  · have ha : 0 < p.amount := not_le.mp hp
    by_cases h1 : 0 < r₁
    · have h2 : 0 < r₂ := lt_of_lt_of_le h1 h
      rw [distributeStep_alloc hp h1, distributeStep_alloc hp h2]
      constructor
      · apply clampProgress_mono
        have hmin : min r₁ p.amount ≤ min r₂ p.amount := min_le_min h le_rfl
        have hdiv : min r₁ p.amount / p.amount ≤ min r₂ p.amount / p.amount :=
          (div_le_div_iff_of_pos_right ha).mpr hmin
        exact mul_le_mul_of_nonneg_right hdiv (by norm_num)
      · exact remaining_sub_min_mono h
    · by_cases h2 : 0 < r₂
      · rw [distributeStep_exhausted hp h1, distributeStep_alloc hp h2]
        constructor
        · exact clampProgress_nonneg _
        · have : (0 : ℚ) ≤ r₂ - min r₂ p.amount := sub_nonneg.mpr (min_le_left _ _)
          have hr1 : r₁ ≤ 0 := not_lt.mp h1
          linarith
      · rw [distributeStep_exhausted hp h1, distributeStep_exhausted hp h2]
        exact ⟨le_rfl, h⟩

/-- C6: holding the target list fixed, a larger pool never decreases any
individual completion percentage: the two runs agree position by position
with the smaller pool's percentage below the larger pool's. -/
theorem progress_monotone_in_pool (ps : List ProjectFromJson) (p₁ p₂ : ℚ)
    (hle : p₁ ≤ p₂) :
    List.Forall₂ (fun a b => a.progress ≤ b.progress)
      (distributeFundsAndCalculateProgress ps p₁)
      (distributeFundsAndCalculateProgress ps p₂) := by
  unfold distributeFundsAndCalculateProgress
  induction ps generalizing p₁ p₂ with
  | nil => exact List.Forall₂.nil
  | cons p rest ih =>
    obtain ⟨hprog, hrem⟩ := distributeStep_mono p hle
    exact List.Forall₂.cons hprog (ih _ _ hrem)

/-- A concrete instance of C6: pools `5 ≤ 7` on a fixed two-target list. -/
theorem progress_monotone_in_pool_witness :
    List.Forall₂ (fun a b => a.progress ≤ b.progress)
      (distributeFundsAndCalculateProgress
        [⟨"a", "", 10, "critical", "2025-06-01"⟩, ⟨"b", "", 20, "low", "2025-06-01"⟩] 5)
      (distributeFundsAndCalculateProgress
        [⟨"a", "", 10, "critical", "2025-06-01"⟩, ⟨"b", "", 20, "low", "2025-06-01"⟩] 7) :=
  progress_monotone_in_pool
    [⟨"a", "", 10, "critical", "2025-06-01"⟩, ⟨"b", "", 20, "low", "2025-06-01"⟩] 5 7
    (by norm_num)

/-! Priority precedence: once a positive-cost target is left short of 100
percent, the pool is exhausted and every later positive-cost target gets
exactly 0. -/

lemma distributeGo_zero_of_nonpos (ps : List ProjectFromJson) :
    ∀ {r : ℚ}, r ≤ 0 → ∀ k, k < ps.length → 0 < (ps.getD k default).amount →
      ((distributeGo r ps).getD k default).progress = 0 := by
  induction ps with
  | nil => intro r _ k hk _; exact absurd hk (by simp)
  | cons p rest ih =>
    intro r hr k hk hpos
    cases k with
    | zero =>
      have hp : ¬ p.amount ≤ 0 := not_le.mpr (by simpa using hpos)
      simp [distributeGo, distributeStep_exhausted hp (not_lt.mpr hr), withProgress]
    | succ n =>
      have hn : n < rest.length := by simpa using hk
      have hp' : 0 < (rest.getD n default).amount := by simpa using hpos
      rw [distributeGo, List.getD_cons_succ, distributeStep_snd_of_nonpos p hr]
      exact ih hr n hn hp'

lemma distributeGo_later_zero (ps : List ProjectFromJson) :
    ∀ (r : ℚ) (i j : ℕ), i < j → j < ps.length →
      0 < (ps.getD i default).amount → 0 < (ps.getD j default).amount →
      ((distributeGo r ps).getD i default).progress < 100 →
      ((distributeGo r ps).getD j default).progress = 0 := by
  induction ps with
  | nil => intro r i j _ hj _ _ _; exact absurd hj (by simp)
  | cons p rest ih =>
    intro r i j hij hj hA hB hprog
    obtain ⟨n, rfl⟩ : ∃ n, j = n + 1 := ⟨j - 1, by omega⟩
    have hn : n < rest.length := by simpa using hj
    have hB' : 0 < (rest.getD n default).amount := by simpa using hB
    cases i with
    | zero =>
      have hpA : 0 < p.amount := by simpa using hA
      have hp : ¬ p.amount ≤ 0 := not_le.mpr hpA
      by_cases hr : 0 < r
      · by_cases hfull : p.amount ≤ r
        · rw [distributeGo, distributeStep_full hpA hfull, List.getD_cons_zero] at hprog
          norm_num [withProgress] at hprog
        · have hlt : r < p.amount := not_le.mp hfull
          rw [distributeGo, distributeStep_partial hpA hr hlt, List.getD_cons_succ]
          exact distributeGo_zero_of_nonpos rest le_rfl n hn hB'
      · rw [distributeGo, List.getD_cons_succ, distributeStep_snd_of_nonpos p (not_lt.mp hr)]
        exact distributeGo_zero_of_nonpos rest (not_lt.mp hr) n hn hB'
    | succ m =>
      have hA' : 0 < (rest.getD m default).amount := by simpa using hA
      rw [distributeGo, List.getD_cons_succ] at hprog ⊢
      exact ih _ m n (by omega) hn hA' hB' hprog

/-- C3: on a priority-sorted list, whenever the result of a strictly
higher-tier positive-cost target A is below 100 percent, every lower-tier
positive-cost target B of the same run gets exactly 0 percent. -/
theorem priority_precedence (ps : List ProjectFromJson) (pool : ℚ)
    (hsorted : ps.Pairwise (fun a b => priorityRank a ≤ priorityRank b))
    (i j : ℕ) (hi : i < ps.length) (hj : j < ps.length)
    (hrank : priorityRank (ps.getD i default) < priorityRank (ps.getD j default))
    (hA : 0 < (ps.getD i default).amount) (hB : 0 < (ps.getD j default).amount)
    (hprog : ((distributeFundsAndCalculateProgress ps pool).getD i default).progress < 100) :
    ((distributeFundsAndCalculateProgress ps pool).getD j default).progress = 0 := by
  have hij : i < j := by
    rcases lt_trichotomy i j with h | h | h
    · exact h
    · exact absurd hrank (by rw [h]; exact lt_irrefl _)
    · exfalso
      have hle := (List.pairwise_iff_getElem.mp hsorted) j i hj hi h
      rw [List.getD_eq_getElem ps default hi, List.getD_eq_getElem ps default hj] at hrank
      exact absurd hrank (not_lt.mpr hle)
  unfold distributeFundsAndCalculateProgress at hprog ⊢
  exact distributeGo_later_zero ps pool i j hij hj hA hB hprog

/-- The specification's concrete scenario: three targets of costs 1000,
500, 2000 at tiers critical, high, low. -/
def scenarioTargets : List ProjectFromJson :=
  [⟨"c", "", 1000, "critical", "2025-06-01"⟩,
   ⟨"h", "", 500, "high", "2025-06-01"⟩,
   ⟨"l", "", 2000, "low", "2025-06-01"⟩]

lemma scenario_run :
    distributeFundsAndCalculateProgress scenarioTargets 1200
      = [withProgress ⟨"c", "", 1000, "critical", "2025-06-01"⟩ 100,
         withProgress ⟨"h", "", 500, "high", "2025-06-01"⟩ 40,
         withProgress ⟨"l", "", 2000, "low", "2025-06-01"⟩ 0] := by
  have h1 : distributeStep 1200 ⟨"c", "", 1000, "critical", "2025-06-01"⟩
      = (withProgress ⟨"c", "", 1000, "critical", "2025-06-01"⟩ 100, 200) := by
    have h := distributeStep_full (p := ⟨"c", "", 1000, "critical", "2025-06-01"⟩)
      (r := 1200) (show (0 : ℚ) < 1000 by norm_num) (show (1000 : ℚ) ≤ 1200 by norm_num)
    rw [h]
    norm_num
  have hcl : clampProgress (200 / 500 * 100) = 40 := by
    unfold clampProgress
    rw [round2_eq_of (200 / 500 * 100) 4000 (by norm_num) (by norm_num)]
    push_cast
    rw [max_eq_right (by norm_num), min_eq_right (by norm_num)]
    norm_num
  have h2 : distributeStep 200 ⟨"h", "", 500, "high", "2025-06-01"⟩
      = (withProgress ⟨"h", "", 500, "high", "2025-06-01"⟩ 40, 0) := by
    have h := distributeStep_partial (p := ⟨"h", "", 500, "high", "2025-06-01"⟩)
      (r := 200) (show (0 : ℚ) < 500 by norm_num) (show (0 : ℚ) < 200 by norm_num)
      (show (200 : ℚ) < 500 by norm_num)
    rw [h, hcl]
  have h3 : distributeStep 0 ⟨"l", "", 2000, "low", "2025-06-01"⟩
      = (withProgress ⟨"l", "", 2000, "low", "2025-06-01"⟩ 0, 0) := by
    exact distributeStep_exhausted (show ¬ ((⟨"l", "", 2000, "low", "2025-06-01"⟩ :
      ProjectFromJson).amount ≤ 0) by norm_num) (by norm_num)
  simp [distributeFundsAndCalculateProgress, distributeGo, scenarioTargets, h1, h2, h3]

/-- A concrete instance of C3: in the scenario run with pool 1200 the
high-tier target reaches only 40 percent, and the low-tier target gets 0. -/
theorem priority_precedence_witness :
    ((distributeFundsAndCalculateProgress scenarioTargets 1200).getD 2 default).progress = 0 :=
  priority_precedence scenarioTargets 1200 (by decide) 1 2 (by decide) (by decide)
    (by decide) (by decide) (by decide)
    (by rw [scenario_run]
        simp [List.getD_cons_succ, List.getD_cons_zero, withProgress]
        norm_num)

/-! Every emitted percentage is clamped to [0, 100] and is an exact
multiple of 1/100. -/

lemma clampProgress_is_hundredth (x : ℚ) : ∃ k : ℤ, clampProgress x = (k : ℚ) / 100 := by
  unfold clampProgress round2
  rcases le_or_lt ((round (x * 100) : ℤ) : ℚ) 0 with h | h
  · refine ⟨0, ?_⟩
    have hdiv : ((round (x * 100) : ℤ) : ℚ) / 100 ≤ 0 :=
      div_nonpos_of_nonpos_of_nonneg h (by norm_num)
    rw [max_eq_left hdiv, min_eq_right (by norm_num)]
    norm_num
  · have hdiv : (0 : ℚ) ≤ ((round (x * 100) : ℤ) : ℚ) / 100 :=
      le_of_lt (div_pos h (by norm_num))
    rw [max_eq_right hdiv]
    rcases le_or_lt (((round (x * 100) : ℤ) : ℚ) / 100) 100 with h2 | h2
    · exact ⟨round (x * 100), min_eq_right h2⟩
    · exact ⟨10000, by rw [min_eq_left (le_of_lt h2)]; norm_num⟩

lemma distributeGo_mem_progress (ps : List ProjectFromJson) :
    ∀ (r : ℚ), ∀ q ∈ distributeGo r ps, ∃ x : ℚ, q.progress = clampProgress x := by
  induction ps with
  | nil => intro r q hq; exact absurd hq (by simp [distributeGo])
  | cons p rest ih =>
    intro r q hq
    rw [distributeGo] at hq
    rcases List.mem_cons.mp hq with h | h
    · obtain ⟨x, hx⟩ := distributeStep_fst_eq r p
      exact ⟨x, by simp [h, hx, withProgress]⟩
    · exact ih _ q h

lemma rounding_run :
    distributeFundsAndCalculateProgress [overshootTarget] 1
      = [withProgress overshootTarget (3333 / 100)] := by
  have hstep : distributeStep 1 overshootTarget
      = (withProgress overshootTarget (clampProgress (1 / 3 * 100)), 0) := by
    have h := distributeStep_partial (p := overshootTarget) (r := 1)
      (show (0 : ℚ) < (3 : ℚ) by norm_num) (by norm_num)
      (show (1 : ℚ) < (3 : ℚ) by norm_num)
    simpa [overshootTarget] using h
  have hcl : clampProgress (1 / 3 * 100) = 3333 / 100 := by
    unfold clampProgress
    rw [round2_eq_of (1 / 3 * 100) 3333 (by norm_num) (by norm_num)]
    push_cast
    rw [max_eq_right (by norm_num), min_eq_right (by norm_num)]
  simp only [distributeFundsAndCalculateProgress, distributeGo, hstep, hcl]

/-- C7: every completion percentage the allocator emits lies in the closed
range [0, 100] and is an exact two-decimal value (an integer number of
hundredths); in particular the single target of cost 3 with pool 1 gets
exactly 33.33. -/
theorem progress_rounded_and_in_range :
    (∀ (ps : List ProjectFromJson) (pool : ℚ),
      ∀ q ∈ distributeFundsAndCalculateProgress ps pool,
        0 ≤ q.progress ∧ q.progress ≤ 100 ∧ ∃ k : ℤ, q.progress = (k : ℚ) / 100)
    ∧ (distributeFundsAndCalculateProgress [overshootTarget] 1).map
        (fun q => q.progress) = [3333 / 100] := by
  constructor
  · intro ps pool q hq
    obtain ⟨x, hx⟩ := distributeGo_mem_progress ps pool q hq
    rw [hx]
    exact ⟨clampProgress_nonneg x, clampProgress_le_hundred x, clampProgress_is_hundredth x⟩
  · rw [rounding_run]
    simp [withProgress]

/-- A concrete instance of C7: the single result of the cost-3 pool-1 run
is in range and is an exact number of hundredths. -/
theorem progress_rounded_and_in_range_witness :
    0 ≤ (withProgress overshootTarget (3333 / 100)).progress
    ∧ (withProgress overshootTarget (3333 / 100)).progress ≤ 100
    ∧ ∃ k : ℤ, (withProgress overshootTarget (3333 / 100)).progress = (k : ℚ) / 100 :=
  progress_rounded_and_in_range.1 [overshootTarget] 1 _
    (by rw [rounding_run]; exact List.mem_singleton_self _)

/-! Sortedness and stability of the priority sort. -/

lemma mem_insertSorted {le : α → α → Bool} {x a : α} {l : List α} :
    x ∈ insertSorted le a l ↔ x = a ∨ x ∈ l := by
  induction l with
  | nil => simp [insertSorted]
  | cons b l ih =>
    rw [insertSorted]
    split
    · simp [List.mem_cons]
    · simp [List.mem_cons, ih]
      tauto

lemma projectLE_of_same_tier {a b : ProjectFromJson} (h : a.priority = b.priority) :
    projectLE a b = true := by
  unfold projectLE compareProjects
  rw [h]
  cases priorityOrder b.priority with
  | none => rfl
  | some x => simp

lemma tier_ne_of_not_projectLE {a b : ProjectFromJson} (h : projectLE a b = false) :
    b.priority ≠ a.priority := by
  intro he
  have ht := projectLE_of_same_tier he.symm
  rw [ht] at h
  exact Bool.true_eq_false.mp h

lemma priorityRank_le_of_projectLE {a b : ProjectFromJson}
    (hva : (priorityOrder a.priority).isSome = true)
    (hvb : (priorityOrder b.priority).isSome = true)
    (h : projectLE a b = true) : priorityRank a ≤ priorityRank b := by
  unfold projectLE compareProjects at h
  unfold priorityRank
  obtain ⟨x, hx⟩ := Option.isSome_iff_exists.mp hva
  obtain ⟨y, hy⟩ := Option.isSome_iff_exists.mp hvb
  rw [hx, hy] at h ⊢
  simp only [decide_eq_true_eq, sub_nonpos] at h
  simp only [Option.getD_some]
  exact_mod_cast h

lemma priorityRank_le_of_not_projectLE {a b : ProjectFromJson}
    (h : projectLE a b = false) : priorityRank b ≤ priorityRank a := by
  unfold projectLE compareProjects at h
  unfold priorityRank
  cases hx : priorityOrder a.priority with
  | none =>
    cases hy : priorityOrder b.priority <;> rw [hx, hy] at h <;> simp at h
  | some x =>
    cases hy : priorityOrder b.priority with
    | none => rw [hx, hy] at h; simp at h
    | some y =>
      rw [hx, hy] at h
      simp only [decide_eq_false_iff_not, not_le, sub_pos] at h
      simp only [Option.getD_some]
      exact le_of_lt (by exact_mod_cast h)

lemma pairwise_insertSorted (a : ProjectFromJson)
    (hva : (priorityOrder a.priority).isSome = true) :
    ∀ l : List ProjectFromJson,
      (∀ p ∈ l, (priorityOrder p.priority).isSome = true) →
      l.Pairwise (fun x y => priorityRank x ≤ priorityRank y) →
      (insertSorted projectLE a l).Pairwise (fun x y => priorityRank x ≤ priorityRank y) := by
  intro l
  induction l with
  | nil => intro _ _; simp [insertSorted]
  | cons b l ih =>
    intro hvl hs
    rw [List.pairwise_cons] at hs
    obtain ⟨hb, hl⟩ := hs
    have hvb : (priorityOrder b.priority).isSome = true := hvl b (by simp)
    have hvl' : ∀ p ∈ l, (priorityOrder p.priority).isSome = true :=
      fun p hp => hvl p (by simp [hp])
    rw [insertSorted]
    by_cases hle : projectLE a b
    · rw [if_pos hle]
      have hab : priorityRank a ≤ priorityRank b :=
        priorityRank_le_of_projectLE hva hvb hle
      refine List.Pairwise.cons ?_ (List.Pairwise.cons hb hl)
      intro z hz
      rcases List.mem_cons.mp hz with rfl | hz
      · exact hab
      · exact le_trans hab (hb z hz)
    · rw [if_neg hle]
      have hle' : projectLE a b = false := by simpa using hle
      have hba : priorityRank b ≤ priorityRank a :=
        priorityRank_le_of_not_projectLE hle'
      refine List.Pairwise.cons ?_ (ih hvl' hl)
      intro z hz
      rcases mem_insertSorted.mp hz with rfl | hz
      · exact hba
      · exact hb z hz

lemma pairwise_stableSort :
    ∀ ps : List ProjectFromJson,
      (∀ p ∈ ps, (priorityOrder p.priority).isSome = true) →
      (stableSort projectLE ps).Pairwise (fun x y => priorityRank x ≤ priorityRank y) := by
  intro ps
  induction ps with
  | nil => intro _; simp [stableSort]
  | cons a ps ih =>
    intro hv
    rw [stableSort]
    refine pairwise_insertSorted a (hv a (by simp)) (stableSort projectLE ps)
      ?_ (ih fun p hp => hv p (by simp [hp]))
    intro p hp
    exact hv p (by simp [(stableSort_perm projectLE ps).mem_iff.mp hp])

lemma filter_insertSorted_same_tier (t : String) (a : ProjectFromJson)
    (l : List ProjectFromJson) (ha : a.priority = t) :
    (insertSorted projectLE a l).filter (fun p => p.priority == t)
      = a :: l.filter (fun p => p.priority == t) := by
  have hat : (a.priority == t) = true := by simp [ha]
  induction l with
  | nil => simp [insertSorted, List.filter, hat]
  | cons b l ih =>
    rw [insertSorted]
    by_cases hle : projectLE a b
    · rw [if_pos hle]
      simp [List.filter_cons, hat]
    · rw [if_neg hle]
      have hle' : projectLE a b = false := by simpa using hle
      have hbt : (b.priority == t) = false := by
        have hne := tier_ne_of_not_projectLE hle'
        rw [ha] at hne
        exact beq_eq_false_iff_ne.mpr hne
      simp only [List.filter_cons, hbt, if_false, Bool.false_eq_true, ih]

lemma filter_insertSorted_other_tier (t : String) (a : ProjectFromJson)
    (l : List ProjectFromJson) (ha : ¬ a.priority = t) :
    (insertSorted projectLE a l).filter (fun p => p.priority == t)
      = l.filter (fun p => p.priority == t) := by
  have hat : (a.priority == t) = false := beq_eq_false_iff_ne.mpr ha
  induction l with
  | nil => simp [insertSorted, List.filter, hat]
  | cons b l ih =>
    rw [insertSorted]
    by_cases hle : projectLE a b
    · rw [if_pos hle]
      simp [List.filter_cons, hat]
    · rw [if_neg hle]
      simp only [List.filter_cons, ih]

lemma filter_stableSort_tier (t : String) (ps : List ProjectFromJson) :
    (stableSort projectLE ps).filter (fun p => p.priority == t)
      = ps.filter (fun p => p.priority == t) := by
  induction ps with
  | nil => rfl
  | cons p rest ih =>
    rw [stableSort]
    by_cases hp : p.priority = t
    · rw [filter_insertSorted_same_tier t p _ hp, ih, List.filter_cons]
      have hpt : (p.priority == t) = true := by simp [hp]
      rw [hpt]
      simp
    · rw [filter_insertSorted_other_tier t p _ hp, ih, List.filter_cons]
      have hpt : (p.priority == t) = false := beq_eq_false_iff_ne.mpr hp
      rw [hpt]
      simp

/-- C8: on an input whose tiers are all recognised, the sort is ordered
ascending by priority rank (critical=1, high=2, medium=3, low=4), and for
every tier the subsequence of that tier's targets keeps its original
relative order (stability). -/
theorem sort_sorted_and_stable (ps : List ProjectFromJson)
    (hvalid : ∀ p ∈ ps, (priorityOrder p.priority).isSome = true) :
    (sortProjectsByPriority ps).Pairwise (fun a b => priorityRank a ≤ priorityRank b)
    ∧ ∀ t : String,
        (sortProjectsByPriority ps).filter (fun p => p.priority == t)
          = ps.filter (fun p => p.priority == t) := by
  constructor
  · exact pairwise_stableSort ps hvalid
  · intro t
    exact filter_stableSort_tier t ps

/-- The tier string of the stability example. -/
def tierHigh : String := "high"

/-- A concrete instance of C8: two same-tier targets in original order
`[B, A]`, both high priority, keep their relative order. -/
theorem sort_sorted_and_stable_witness :
    (sortProjectsByPriority
        [⟨"B", "", 50, "high", "2025-06-01"⟩, ⟨"A", "", 10, "high", "2025-06-01"⟩]).filter
        (fun p => p.priority == tierHigh)
      = [⟨"B", "", 50, "high", "2025-06-01"⟩,
         ⟨"A", "", 10, "high", "2025-06-01"⟩].filter (fun p => p.priority == tierHigh) :=
  (sort_sorted_and_stable
    [⟨"B", "", 50, "high", "2025-06-01"⟩, ⟨"A", "", 10, "high", "2025-06-01"⟩]
    (by decide)).2 tierHigh

end FirstApp
